import Mathlib

/-
Verification development for the sam wiki server (package server of
github.com/kirill-shtrykov/sam): a shallow embedding of the metadata reader
(readMeta), the directory scanner (readDir), the tag index
(Tags.Add, Tags.Get, Tags.Update), page route registration (Page.Register,
Page.Redirect) and the page HTTP handler (Page.Handler), together with
theorems about them.

Modelling conventions:
- Strings are ASCII, so Go byte indexing and slicing agree with character
  counts, and strings.ToLower agrees with ASCII lowercasing.
- The filesystem is an FSEntry tree whose files carry their content as a
  list of lines (the bufio scanner of the Go code is line based).
  Directory listings and file opens succeed; I/O failures, which in the Go
  code abort readDir and readMeta, are outside the model, so the scanner
  error of readMeta is nil and the Except layer of readDir never fires.
- filepath.Join of a clean directory path and a bare entry name is
  modelled as dir ++ "/" ++ name.  For the HTTP route patterns, joinURL
  additionally collapses duplicate slashes and trims a trailing slash,
  which is what filepath.Clean does on inputs without dot segments.
- yaml.Unmarshal of gopkg.in/yaml.v3 into the Meta struct is modelled for
  the subset the wiki metadata uses: one key per line, flow style lists
  for tags, true or false scalars for draft, unknown keys ignored.
  A syntax error (for example an unclosed flow list) yields the zero
  value together with an error; a type error keeps the other decoded
  fields and reports an error.  The Go code discards this error value.
- http.HandleFunc on the default ServeMux panics when the same pattern is
  registered twice; the route table model returns none for that panic.
- The ResponseWriter carries net/http commit semantics: the status is
  committed by the first WriteHeader or the first body write, later
  WriteHeader calls are ignored as superfluous, and template execution
  writes its output through the writer as it runs, so a failure leaves the
  prefix written so far in place.  A handler panic is recovered by
  net/http, which closes the connection and discards the small buffered
  output without flushing it, so the client receives no response; the
  server keeps serving other requests.
-/

namespace Sam

/-- Go byte slicing s[n:], for ASCII strings. -/
def strDrop (s : String) (n : Nat) : String := ⟨s.data.drop n⟩

/-- Go byte slicing s[:len(s)-n], for ASCII strings. -/
def strDropRight (s : String) (n : Nat) : String := ⟨s.data.take (s.data.length - n)⟩

/-- Suffix of a file name starting at the final dot, as in filepath.Ext
applied to a bare file name (no slashes). -/
def extChars : List Char → List Char
  | [] => []
  | c :: cs =>
    match extChars cs with
    | [] => if c == '.' then c :: cs else []
    | r => r

/-- filepath.Ext for a bare file name. -/
def fileExt (s : String) : String := ⟨extChars s.data⟩

/-- filepath.Join of a clean directory path and an entry name. -/
def joinPath (d nm : String) : String := d ++ "/" ++ nm

/-- File name with its extension removed, name[:len(name)-len(Ext(name))]. -/
def stripExtName (nm : String) : String := strDropRight nm (fileExt nm).length

/-- Front matter metadata decoded from YAML: tags and draft. -/
structure Meta where
  tags : List String
  draft : Bool
deriving DecidableEq

/-- Wiki page: name, file path, decoded metadata and route URI. -/
structure Page where
  name : String
  filePath : String
  meta : Meta
  uri : String
deriving DecidableEq

/-- Trim leading and trailing spaces from a character list. -/
def trimChars (l : List Char) : List Char :=
  ((l.dropWhile (fun c => c == ' ')).reverse.dropWhile (fun c => c == ' ')).reverse

/-- Split a character list at every comma. -/
def splitComma : List Char → List (List Char)
  | [] => [[]]
  | c :: rest =>
    if c == ',' then [] :: splitComma rest
    else
      match splitComma rest with
      | [] => [[c]]
      | g :: gs => (c :: g) :: gs

/-- Split a character list at the first colon, if any. -/
def splitColon : List Char → Option (List Char × List Char)
  | [] => none
  | c :: rest =>
    if c == ':' then some ([], rest)
    else (splitColon rest).map (fun p => (c :: p.1, p.2))

/-- Items of a YAML flow sequence body (the part between the brackets). -/
def parseFlowItems (inner : List Char) : List String :=
  if trimChars inner = [] then []
  else (splitComma inner).map (fun i => String.mk (trimChars i))

/-- Syntax of a scalar or flow value: a value opening a flow sequence must
also close it on the same line. -/
def flowOk (val : List Char) : Bool :=
  match val with
  | '[' :: rest => rest.getLast? == some ']'
  | _ => true

/-- Syntactic wellformedness of one metadata line in the modelled YAML
subset: blank, or a key-value pair whose value is bracket balanced. -/
def lineSyntaxOk (line : String) : Bool :=
  let t := trimChars line.data
  if t.isEmpty then true
  else
    match splitColon t with
    | none => false
    | some (_, v) => flowOk (trimChars v)

/-- Decode one metadata line into the accumulating Meta value, recording a
type error without discarding fields decoded so far (yaml.v3 behaviour). -/
def decodeLine (acc : Meta × Option String) (line : String) : Meta × Option String :=
  let t := trimChars line.data
  if t.isEmpty then acc
  else
    match splitColon t with
    | none => acc
    | some (k, v) =>
      let key := trimChars k
      let val := trimChars v
      if key = "tags".data then
        match val with
        | [] => acc
        | '[' :: rest => ({ acc.1 with tags := parseFlowItems rest.dropLast }, acc.2)
        | _ => (acc.1, some "yaml: cannot unmarshal into target type")
      else if key = "draft".data then
        if val = [] then acc
        else if val = "true".data then ({ acc.1 with draft := true }, acc.2)
        else if val = "false".data then ({ acc.1 with draft := false }, acc.2)
        else (acc.1, some "yaml: cannot unmarshal into target type")
      else acc

/-- yaml.Unmarshal of the collected front matter lines into Meta, returning
the decoded value and the error the Go code ignores.  A syntax error leaves
the target at its zero value. -/
def yamlUnmarshalMeta (ms : List String) : Meta × Option String :=
  if ms.all lineSyntaxOk then ms.foldl decodeLine (⟨[], false⟩, none)
  else (⟨[], false⟩, some "yaml: syntax error")

/-- Error space of readMeta in the model: ErrMetaNotFound.  The only other
error the Go readMeta can return is a scanner I/O error, which is outside
the model. -/
inductive MetaErr where
  | notFound
deriving DecidableEq

/-- Loop of readMeta: found tells whether the opening delimiter has been
seen, acc holds the collected lines. -/
def readMetaLoop (found : Bool) (acc : List String) : List String → Except MetaErr (List String)
  | [] => .ok []
  | l :: ls =>
    if l = "" then readMetaLoop found acc ls
    else if found then
      if l = "---" then .ok acc
      else readMetaLoop found (acc ++ [l]) ls
    else if l = "---" then readMetaLoop true acc ls
    else .error .notFound

/-- readMeta of the server package, on the lines of the file.  Note that at
end of input the Go code returns nil, sc.Err(), which in the error free
model is success with an empty line list, discarding the accumulator. -/
def readMeta (ls : List String) : Except MetaErr (List String) :=
  readMetaLoop false [] ls

/-- First non empty line of a file, used to state properties of readMeta. -/
def firstNonBlank : List String → Option String
  | [] => none
  | l :: ls => if l = "" then firstNonBlank ls else some l

/-- Metadata of a page as computed inside readDir: the readMeta result
(nil on ErrMetaNotFound) joined and passed to yaml.Unmarshal, whose error
is discarded. -/
def mkMeta (ls : List String) : Meta :=
  let ms :=
    match readMeta ls with
    | .ok ms => ms
    | .error _ => []
  (yamlUnmarshalMeta ms).1

/-- Page built by readDir for a Markdown file named nm with content ls in
directory d: name is the file name without extension, the URI is
fpath[len(dir) : len(fpath)-len(ext)]. -/
def mkPage (d nm : String) (ls : List String) : Page :=
  { name := strDropRight nm (fileExt nm).length
    filePath := joinPath d nm
    meta := mkMeta ls
    uri := strDropRight (strDrop (joinPath d nm) d.length) (fileExt nm).length }

/-- Filesystem tree: files with content lines, directories with entries. -/
inductive FSEntry where
  | file (name : String) (lines : List String)
  | dir (name : String) (entries : List FSEntry)

/-- readDir of the server package on a directory listing.  Directories are
recursed into, Markdown files produce a page, other files are skipped.
The Except layer mirrors the Go signature; in the model without I/O
failures no branch produces an error. -/
def readDir (d : String) : List FSEntry → Except String (List Page)
  | [] => .ok []
  | .dir nm sub :: rest => do
    let ps ← readDir (joinPath d nm) sub
    let qs ← readDir d rest
    return ps ++ qs
  | .file nm ls :: rest =>
    if fileExt nm = ".md" then do
      let qs ← readDir d rest
      return mkPage d nm ls :: qs
    else readDir d rest

/-- Total companion of readDir used in proofs: the page list it returns. -/
def listPages (d : String) : List FSEntry → List Page
  | [] => []
  | .dir nm sub :: rest => listPages (joinPath d nm) sub ++ listPages d rest
  | .file nm ls :: rest =>
    (if fileExt nm = ".md" then [mkPage d nm ls] else []) ++ listPages d rest

/-- Names of the Markdown files of a tree in traversal order. -/
def mdNames : List FSEntry → List String
  | [] => []
  | .dir _ sub :: rest => mdNames sub ++ mdNames rest
  | .file nm _ :: rest => (if fileExt nm = ".md" then [nm] else []) ++ mdNames rest

/-- Joined paths of the Markdown files of a tree in traversal order. -/
def mdPaths (d : String) : List FSEntry → List String
  | [] => []
  | .dir nm sub :: rest => mdPaths (joinPath d nm) sub ++ mdPaths d rest
  | .file nm _ :: rest => (if fileExt nm = ".md" then [joinPath d nm] else []) ++ mdPaths d rest

/-- Number of Markdown files in a tree. -/
def countMd : List FSEntry → Nat
  | [] => 0
  | .dir _ sub :: rest => countMd sub + countMd rest
  | .file nm _ :: rest => (if fileExt nm = ".md" then 1 else 0) + countMd rest

/-- Tag of the server package: a name and the pages carrying it. -/
structure Tag where
  name : String
  pages : List Page
deriving DecidableEq

/-- Tag index of the server package. -/
structure Tags where
  tags : List Tag
deriving DecidableEq

/-- Tags.Get: first tag with the given name, nil when absent. -/
def Tags.Get (t : Tags) (n : String) : Option Tag :=
  t.tags.find? (fun tag => tag.name == n)

/-- Tags.Add: error when the name exists, else append a tag with an empty
page list.  The state component is the receiver after the call. -/
def Tags.Add (t : Tags) (n : String) : Tags × Option String :=
  match t.Get n with
  | some _ => (t, some "tag already exists")
  | none => (⟨t.tags ++ [⟨n, []⟩]⟩, none)

/-- Append a page to the first tag with the given name, mirroring the
mutation through the pointer returned by Get. -/
def updateFirst (n : String) (p : Page) : List Tag → List Tag
  | [] => []
  | tag :: rest =>
    if tag.name == n then ⟨tag.name, tag.pages ++ [p]⟩ :: rest
    else tag :: updateFirst n p rest

/-- Tags.Update: error when the name is absent, else append the page to
that tag.  The state component is the receiver after the call. -/
def Tags.Update (t : Tags) (n : String) (p : Page) : Tags × Option String :=
  match t.Get n with
  | none => (t, some ("tag " ++ n ++ " not found"))
  | some _ => (⟨updateFirst n p t.tags⟩, none)

/-- ASCII lowercasing of one character, strings.ToLower on ASCII input. -/
def lowerChar (c : Char) : Char :=
  if 'A' ≤ c ∧ c ≤ 'Z' then Char.ofNat (c.toNat + 32) else c

/-- strings.ToLower for ASCII strings. -/
def strToLower (s : String) : String := ⟨s.data.map lowerChar⟩

/-- Boolean test that pat starts the list. -/
def isPref : List Char → List Char → Bool
  | [], _ => true
  | _ :: _, [] => false
  | a :: as, b :: bs => a == b && isPref as bs

/-- strings.Replace with an empty pattern: the replacement is inserted
before every character and at the end. -/
def interleave (rep : List Char) : List Char → List Char
  | [] => rep
  | c :: cs => rep ++ c :: interleave rep cs

/-- Fuelled left to right non overlapping replacement; the fuel is the
input length, enough because each step consumes at least one character. -/
def replaceAux (pat rep : List Char) : Nat → List Char → List Char
  | _, [] => []
  | 0, s => s
  | fuel + 1, c :: cs =>
    if isPref pat (c :: cs) then rep ++ replaceAux pat rep fuel ((c :: cs).drop pat.length)
    else c :: replaceAux pat rep fuel cs

/-- strings.Replace(s, pat, rep, -1). -/
def strReplace (s pat rep : String) : String :=
  match pat.data with
  | [] => ⟨interleave rep.data s.data⟩
  | _ :: _ => ⟨replaceAux pat.data rep.data s.data.length s.data⟩

/-- Collapse runs of slashes to one slash, as filepath.Clean does on paths
without dot segments. -/
def collapseSlashes : List Char → List Char
  | [] => []
  | [c] => [c]
  | c :: c2 :: rest =>
    if c == '/' && c2 == '/' then collapseSlashes (c2 :: rest)
    else c :: collapseSlashes (c2 :: rest)

/-- Remove a trailing slash except on the root path. -/
def dropTrailSlash (l : List Char) : List Char :=
  if l ≠ ['/'] ∧ l.getLast? = some '/' then l.dropLast else l

/-- filepath.Join(b, p) for the route patterns of the server: slash
concatenation followed by Clean, on inputs without dot segments. -/
def joinURL (b p : String) : String :=
  ⟨dropTrailSlash (collapseSlashes (b.data ++ '/' :: p.data))⟩

/-- Handlers a route can point at: the page handler or its lowercase alias
redirect handler. -/
inductive RouteHandler where
  | page (p : Page)
  | redirect (p : Page)
deriving DecidableEq

/-- http.HandleFunc on the default ServeMux: none models the panic raised
on a duplicate pattern registration. -/
def handleFunc (rs : List (String × RouteHandler)) (pat : String) (h : RouteHandler) :
    Option (List (String × RouteHandler)) :=
  if rs.any (fun r => r.1 == pat) then none
  else some (rs ++ [(pat, h)])

/-- Page.Register: the canonical route at Join(base, uri) for the page
handler, then the alias route at Join(base, Replace(uri, name,
ToLower(name), -1)) for the redirect handler. -/
def Page.Register (p : Page) (base : String) (rs : List (String × RouteHandler)) :
    Option (List (String × RouteHandler)) :=
  match handleFunc rs (joinURL base p.uri) (.page p) with
  | none => none
  | some r1 =>
    handleFunc r1 (joinURL base (strReplace p.uri p.name (strToLower p.name))) (.redirect p)

/-- HTTP response as the client sees it: status, body, Location target. -/
structure HttpResponse where
  status : Nat
  body : String
  location : String
deriving DecidableEq

/-- Page.Redirect: http.Redirect to the canonical URI with status 301. -/
def Page.Redirect (p : Page) : HttpResponse := ⟨301, "", p.uri⟩

/-- What the client observes for one request: a delivered response, or a
connection closed after a handler panic.  net/http recovers the panic, so
the failure stays confined to the request, but the small buffered output
is discarded without being flushed, so nothing reaches the client. -/
inductive ConnResult where
  | sent (status : Nat) (body : String)
  | closed
deriving DecidableEq

/-- Response writer with net/http commit semantics: the status is
committed by the first WriteHeader or the first body write; a later
WriteHeader is ignored as superfluous. -/
structure RespWriter where
  status : Option Nat
  body : String

/-- Body write: commits status 200 when nothing is committed yet.  Writing
zero bytes (a template that failed before producing output) commits
nothing. -/
def RespWriter.write (w : RespWriter) (s : String) : RespWriter :=
  if s = "" then w else ⟨some (w.status.getD 200), w.body ++ s⟩

/-- http.Error(w, "Internal server error", 500): WriteHeader(500), which
is ignored when a status is already committed, then the message and a
newline appended to the body. -/
def RespWriter.httpError (w : RespWriter) : RespWriter :=
  ⟨some (w.status.getD 500), w.body ++ "Internal server error\n"⟩

/-- Delivered response once the handler returns normally (an untouched
writer delivers an empty 200). -/
def RespWriter.result (w : RespWriter) : ConnResult :=
  .sent (w.status.getD 200) w.body

/-- Outcome of tpl.Execute(w, data): the full output written, or a failure
after having written a prefix of the output through the writer (the empty
prefix when the failure came before any write). -/
inductive ExecOutcome where
  | ok (out : String)
  | fail (wrote : String) (msg : String)
deriving DecidableEq

/-- Outcomes of the external calls a request handler makes: for each
fallible step, some message models failure with that underlying error
text. -/
structure HandlerEnv where
  repoOpen : Option String
  history : Option String
  htmlRes : Except String String
  tplParse : Option String
  tplExec : ExecOutcome

/-- Template tail of Page.Handler, on a fresh writer.  On a parse error
the Go code logs and buffers the generic 500 but, lacking a return, then
calls Execute on the nil template, which panics before writing: net/http
recovers, the connection closes and the buffered bytes are discarded, so
the client receives nothing.  On an execute error the prefix already
written stands (committing 200 when nonempty) and http.Error appends the
generic text, its WriteHeader ignored once 200 is committed. -/
def finishTemplate (env : HandlerEnv) : ConnResult :=
  match env.tplParse with
  | some _ => .closed
  | none =>
    match env.tplExec with
    | .ok out => (RespWriter.write ⟨none, ""⟩ out).result
    | .fail wrote _ => ((RespWriter.write ⟨none, ""⟩ wrote).httpError).result

/-- Page.Handler: the history branch opens the repository and reads the
log, the article branch renders the Markdown; each of these failures is
logged and answered with the generic 500 before returning; then the
templates are parsed and executed. -/
def Page.Handler (p : Page) (isHistory : Bool) (env : HandlerEnv) : ConnResult :=
  if isHistory then
    match env.repoOpen with
    | some _ => (RespWriter.httpError ⟨none, ""⟩).result
    | none =>
      match env.history with
      | some _ => (RespWriter.httpError ⟨none, ""⟩).result
      | none => finishTemplate env
  else
    match env.htmlRes with
    | .error _ => (RespWriter.httpError ⟨none, ""⟩).result
    | .ok _ => finishTemplate env

/-- Success test for the rendering result. -/
def exceptOk : Except String String → Bool
  | .ok _ => true
  | .error _ => false

/-- A step before the template stage of the branch taken by Page.Handler
fails (repository open or history read in the history branch, Markdown
rendering in the article branch). -/
def earlyFails (isHistory : Bool) (env : HandlerEnv) : Prop :=
  if isHistory then env.repoOpen ≠ none ∨ env.history ≠ none
  else exceptOk env.htmlRes = false

/-- All steps before the template stage of the taken branch succeed. -/
def earlyOk (isHistory : Bool) (env : HandlerEnv) : Prop :=
  if isHistory then env.repoOpen = none ∧ env.history = none
  else exceptOk env.htmlRes = true

/-- Sample page used by witnesses. -/
def pgA : Page := ⟨"A", "/w/A.md", ⟨[], false⟩, "/A"⟩

/-- Second sample page used by witnesses. -/
def pgB : Page := ⟨"B", "/w/B.md", ⟨[], false⟩, "/B"⟩

/-- Sample tag index holding the single tag x. -/
def tagsX : Tags := ⟨[⟨"x", []⟩]⟩

/-- Sample page with an uppercase letter in its name. -/
def homePage : Page := ⟨"Home", "/w/Home.md", ⟨[], false⟩, "/Home"⟩

/-- Sample handler environment whose rendering step fails. -/
def envHtmlFail : HandlerEnv := ⟨none, none, .error "boom", none, .ok ""⟩

/-- Sample handler environment whose template parsing fails. -/
def envParseFail : HandlerEnv :=
  ⟨none, none, .ok "<p>x</p>", some "open templates/article.html: no such file", .ok ""⟩

/-- Sample handler environment whose template execution fails before any
output is written. -/
def envExecEarlyFail : HandlerEnv :=
  ⟨none, none, .ok "<p>x</p>", none, .fail "" "template: article: executing failed"⟩

/-- Sample handler environment whose template execution fails after part
of the output is written. -/
def envExecMidFail : HandlerEnv :=
  ⟨none, none, .ok "<p>x</p>", none, .fail "<h1>Hi" "write tcp: broken pipe"⟩

end Sam

namespace Sam

theorem string_data_append (a b : String) : (a ++ b).data = a.data ++ b.data := rfl

theorem extChars_length_le : ∀ l : List Char, (extChars l).length ≤ l.length
  | [] => Nat.le_refl 0
  | c :: cs => by
    simp only [extChars]
    cases hcc : extChars cs with
    | nil =>
      by_cases hc : (c == '.') = true
      · simp [hc]
      · simp [hc]
    | cons r rs =>
      have h := extChars_length_le cs
      rw [hcc] at h
      simp only [List.length_cons] at h ⊢
      omega

theorem mkPage_uri (d nm : String) (ls : List String) :
    (mkPage d nm ls).uri = "/" ++ stripExtName nm := by
  have hle : (fileExt nm).length ≤ nm.data.length := extChars_length_le nm.data
  have hdata : (joinPath d nm).data = d.data ++ '/' :: nm.data := by
    simp [joinPath, string_data_append, List.append_assoc]
  have h1 : strDrop (joinPath d nm) d.length = ⟨'/' :: nm.data⟩ := by
    simp only [strDrop, hdata, String.length]
    rw [List.drop_left]
  have h0 : (mkPage d nm ls).uri
      = strDropRight (strDrop (joinPath d nm) d.length) (fileExt nm).length := rfl
  rw [h0, h1]
  have h2 : ('/' :: nm.data).take (('/' :: nm.data).length - (fileExt nm).length)
      = '/' :: nm.data.take (nm.data.length - (fileExt nm).length) := by
    have hlen : ('/' :: nm.data).length - (fileExt nm).length
        = (nm.data.length - (fileExt nm).length) + 1 := by
      simp only [List.length_cons]
      omega
    rw [hlen, List.take_succ_cons]
  show String.mk (('/' :: nm.data).take (('/' :: nm.data).length - (fileExt nm).length))
      = "/" ++ stripExtName nm
  rw [h2]
  rfl

end Sam

namespace Sam

theorem readMetaLoop_blank_skip (found : Bool) (acc ls : List String) :
    ∀ bs : List String, (∀ b ∈ bs, b = "") →
      readMetaLoop found acc (bs ++ ls) = readMetaLoop found acc ls
  | [], _ => rfl
  | b :: bs, hb => by
    have hb0 : b = "" := hb b (List.mem_cons_self b bs)
    have hbs : ∀ x ∈ bs, x = "" := fun x hx => hb x (List.mem_cons_of_mem b hx)
    simp [readMetaLoop, hb0, readMetaLoop_blank_skip found acc ls bs hbs]

theorem readMetaLoop_notFound (acc : List String) :
    ∀ (ls : List String) (l : String), firstNonBlank ls = some l → l ≠ "---" →
      readMetaLoop false acc ls = .error .notFound
  | [], l, h1, _ => by simp [firstNonBlank] at h1
  | a :: ls, l, h1, h2 => by
    by_cases ha : a = ""
    · simp only [firstNonBlank, if_pos ha] at h1
      simp [readMetaLoop, ha, readMetaLoop_notFound acc ls l h1 h2]
    · simp only [firstNonBlank, if_neg ha, Option.some.injEq] at h1
      subst h1
      simp [readMetaLoop, ha, h2]

theorem readMetaLoop_collect :
    ∀ (mid : List String), "---" ∉ mid → ∀ (acc rest : List String),
      readMetaLoop true acc (mid ++ "---" :: rest) = .ok (acc ++ mid.filter (fun l => l != ""))
  | [], _, acc, rest => by simp [readMetaLoop]
  | m :: mid, hm, acc, rest => by
    have hm1 : m ≠ "---" := fun h => hm (h ▸ List.mem_cons_self m mid)
    have hm2 : "---" ∉ mid := fun h => hm (List.mem_cons_of_mem m h)
    by_cases hblank : m = ""
    · simp [readMetaLoop, hblank, readMetaLoop_collect mid hm2 acc rest]
    · simp [readMetaLoop, hblank, hm1, readMetaLoop_collect mid hm2 (acc ++ [m]) rest,
        List.filter_cons, bne_iff_ne]

theorem readMetaLoop_discard :
    ∀ (rest : List String), "---" ∉ rest → ∀ acc : List String,
      readMetaLoop true acc rest = .ok []
  | [], _, _ => rfl
  | r :: rest, hr, acc => by
    have h1 : r ≠ "---" := fun h => hr (h ▸ List.mem_cons_self r rest)
    have h2 : "---" ∉ rest := fun h => hr (List.mem_cons_of_mem r h)
    by_cases hb : r = ""
    · simp [readMetaLoop, hb, readMetaLoop_discard rest h2 acc]
    · simp [readMetaLoop, hb, h1, readMetaLoop_discard rest h2 (acc ++ [r])]

theorem readMetaLoop_no_blank :
    ∀ (ls : List String) (found : Bool) (acc ms : List String), "" ∉ acc →
      readMetaLoop found acc ls = .ok ms → "" ∉ ms
  | [], _, acc, ms, _, h => by
    simp only [readMetaLoop, Except.ok.injEq] at h
    subst h
    exact List.not_mem_nil ""
  | l :: ls, found, acc, ms, hacc, h => by
    by_cases hb : l = ""
    · exact readMetaLoop_no_blank ls found acc ms hacc (by simpa [readMetaLoop, hb] using h)
    · cases found with
      | false =>
        by_cases hd : l = "---"
        · exact readMetaLoop_no_blank ls true acc ms hacc
            (by simpa [readMetaLoop, hb, hd] using h)
        · simp [readMetaLoop, hb, hd] at h
      | true =>
        by_cases hd : l = "---"
        · have hms : acc = ms := by simpa [readMetaLoop, hb, hd] using h
          exact hms ▸ hacc
        · refine readMetaLoop_no_blank ls true (acc ++ [l]) ms ?_
            (by simpa [readMetaLoop, hb, hd] using h)
          simp [List.mem_append, hacc]
          exact fun hx => hb hx.symm

theorem find_tag_append (l1 l2 : List Tag) (y : String)
    (h : ∀ tag ∈ l1, (tag.name == y) = false) :
    (l1 ++ l2).find? (fun tag => tag.name == y) = l2.find? (fun tag => tag.name == y) := by
  induction l1 with
  | nil => rfl
  | cons a l ih =>
    have ha := h a (List.mem_cons_self a l)
    have hl : ∀ tag ∈ l, (tag.name == y) = false :=
      fun tg htg => h tg (List.mem_cons_of_mem a htg)
    simp [List.find?, ha, ih hl]

theorem updateFirst_append (l1 l2 : List Tag) (n : String) (p : Page)
    (h : ∀ tag ∈ l1, (tag.name == n) = false) :
    updateFirst n p (l1 ++ l2) = l1 ++ updateFirst n p l2 := by
  induction l1 with
  | nil => rfl
  | cons a l ih =>
    have ha := h a (List.mem_cons_self a l)
    have hl : ∀ tag ∈ l, (tag.name == n) = false :=
      fun tg htg => h tg (List.mem_cons_of_mem a htg)
    simp [updateFirst, ha, ih hl]

theorem isPref_append : ∀ (pat l : List Char), isPref pat l = true → pat ++ l.drop pat.length = l
  | [], l, _ => rfl
  | _ :: _, [], h => by simp [isPref] at h
  | a :: as, b :: bs, h => by
    simp only [isPref, Bool.and_eq_true, beq_iff_eq] at h
    obtain ⟨rfl, h2⟩ := h
    simp only [List.length_cons, List.drop_succ_cons, List.cons_append]
    exact congrArg (List.cons a) (isPref_append as bs h2)

theorem replaceAux_self (pat : List Char) : ∀ (fuel : Nat) (s : List Char),
    replaceAux pat pat fuel s = s
  | _, [] => by simp [replaceAux]
  | 0, _ :: _ => by simp [replaceAux]
  | fuel + 1, c :: cs => by
    by_cases h : isPref pat (c :: cs) = true
    · have hrec := replaceAux_self pat fuel ((c :: cs).drop pat.length)
      simp [replaceAux, h, hrec, isPref_append pat (c :: cs) h]
    · simp [replaceAux, h, replaceAux_self pat fuel cs]

theorem interleave_nil : ∀ s : List Char, interleave [] s = s
  | [] => rfl
  | c :: cs => by simp [interleave, interleave_nil cs]

theorem strReplace_self (s pat : String) : strReplace s pat pat = s := by
  cases s with
  | mk sdata =>
    cases pat with
    | mk pdata =>
      cases pdata with
      | nil => simp [strReplace, interleave_nil]
      | cons a as => simp [strReplace, replaceAux_self]

theorem lowerChar_id {c : Char} (h : ¬('A' ≤ c ∧ c ≤ 'Z')) : lowerChar c = c := if_neg h

theorem mapLower_id : ∀ l : List Char, (∀ c ∈ l, ¬('A' ≤ c ∧ c ≤ 'Z')) → l.map lowerChar = l
  | [], _ => rfl
  | c :: cs, h => by
    simp [lowerChar_id (h c (List.mem_cons_self c cs)),
      mapLower_id cs (fun x hx => h x (List.mem_cons_of_mem c hx))]

theorem strToLower_id (s : String) (h : ∀ c ∈ s.data, ¬('A' ≤ c ∧ c ≤ 'Z')) :
    strToLower s = s := by
  cases s with
  | mk l => simp only [strToLower, mapLower_id l h]

end Sam

namespace Sam

theorem readDir_ok (d : String) (es : List FSEntry) :
    readDir d es = Except.ok (listPages d es) :=
  match es with
  | [] => by simp [readDir, listPages]
  | .dir nm sub :: rest =>
    let h1 := readDir_ok (joinPath d nm) sub
    let h2 := readDir_ok d rest
    by simp [readDir, listPages, h1, h2, Bind.bind, Except.bind, Pure.pure, Except.pure]
  | .file nm ls :: rest =>
    let h2 := readDir_ok d rest
    by by_cases hmd : fileExt nm = ".md" <;>
      simp [readDir, listPages, h2, hmd, Bind.bind, Except.bind, Pure.pure, Except.pure]

theorem listPages_map_uri (d : String) (es : List FSEntry) :
    (listPages d es).map Page.uri = (mdNames es).map (fun nm => "/" ++ stripExtName nm) :=
  match es with
  | [] => by simp [listPages, mdNames]
  | .dir nm sub :: rest =>
    let h1 := listPages_map_uri (joinPath d nm) sub
    let h2 := listPages_map_uri d rest
    by simp [listPages, mdNames, h1, h2]
  | .file nm ls :: rest =>
    let h2 := listPages_map_uri d rest
    by by_cases hmd : fileExt nm = ".md" <;> simp [listPages, mdNames, hmd, h2, mkPage_uri]

theorem listPages_map_filePath (d : String) (es : List FSEntry) :
    (listPages d es).map Page.filePath = mdPaths d es :=
  match es with
  | [] => by simp [listPages, mdPaths]
  | .dir nm sub :: rest =>
    let h1 := listPages_map_filePath (joinPath d nm) sub
    let h2 := listPages_map_filePath d rest
    by simp [listPages, mdPaths, h1, h2]
  | .file nm ls :: rest =>
    let h2 := listPages_map_filePath d rest
    by by_cases hmd : fileExt nm = ".md" <;> simp [listPages, mdPaths, hmd, h2, mkPage]

theorem listPages_length (d : String) (es : List FSEntry) :
    (listPages d es).length = countMd es :=
  match es with
  | [] => by simp [listPages, countMd]
  | .dir nm sub :: rest =>
    let h1 := listPages_length (joinPath d nm) sub
    let h2 := listPages_length d rest
    by simp [listPages, countMd, h1, h2]
  | .file nm ls :: rest =>
    let h2 := listPages_length d rest
    by by_cases hmd : fileExt nm = ".md" <;> simp [listPages, countMd, hmd, h2] <;> omega

/-- C2 (amended): for every Markdown file found at any depth, the page URI
is a slash followed by the base file name without its extension: the
prefix the code strips is the immediate parent directory passed to the
recursive readDir call, not the wiki root. -/
theorem readDir_uri_basename (d : String) (es : List FSEntry) :
    (readDir d es).map (fun ps => ps.map Page.uri)
      = .ok ((mdNames es).map (fun nm => "/" ++ stripExtName nm)) := by
  rw [readDir_ok]
  simp [Except.map, listPages_map_uri]

/-- C2 counterexample: the file sub/Name.md under root /w produces the URI
/Name, while stripping the wiki root prefix and the extension from its
path would give /sub/Name. -/
theorem uri_root_strip_cex :
    (readDir "/w" [.dir "sub" [.file "Name.md" ["hello"]]]).map (fun ps => ps.map Page.uri)
        = .ok ["/Name"] ∧
    (readDir "/w" [.dir "sub" [.file "Name.md" ["hello"]]]).map (fun ps => ps.map Page.filePath)
        = .ok ["/w/sub/Name.md"] ∧
    strDropRight (strDrop "/w/sub/Name.md" ("/w" : String).length) (fileExt "Name.md").length
        = "/sub/Name" ∧
    ("/Name" : String) ≠ "/sub/Name" := by
  refine ⟨?_, ?_, by rfl, by decide⟩
  · rw [readDir_ok]
    simp only [listPages]
    rfl
  · rw [readDir_ok]
    simp only [listPages]
    rfl

/-- C6: on a tree whose listings and opens all succeed (the standing model
assumption), readDir yields exactly one page per Markdown file, at any
depth, skipping other files: the page count is the Markdown file count and
the page paths are exactly the Markdown file paths in traversal order. -/
theorem readDir_count_md (d : String) (es : List FSEntry) :
    (readDir d es).map List.length = .ok (countMd es) ∧
    (readDir d es).map (fun ps => ps.map Page.filePath) = .ok (mdPaths d es) := by
  rw [readDir_ok]
  exact ⟨by simp [Except.map, listPages_length], by simp [Except.map, listPages_map_filePath]⟩

end Sam

namespace Sam

/-- C1: Tag Index API semantics: Add on a present name fails with the
already exists error and leaves the index unchanged; Update on an absent
name fails with the not found error and leaves the index unchanged; after
Add(y) then Update(y, p1) then Update(y, p2) on an index without y,
Get(y) returns the tag whose page list is exactly [p1, p2] in call order. -/
theorem tags_api_semantics (t : Tags) (x y : String) (p p1 p2 : Page) :
    ((t.Get x).isSome → t.Add x = (t, some "tag already exists")) ∧
    (t.Get y = none → t.Update y p = (t, some ("tag " ++ y ++ " not found"))) ∧
    (t.Get y = none →
      ((((t.Add y).1.Update y p1).1.Update y p2).1.Get y = some ⟨y, [p1, p2]⟩)) := by
  refine ⟨?_, ?_, ?_⟩
  · intro h
    obtain ⟨tg, htg⟩ := Option.isSome_iff_exists.mp h
    simp [Tags.Add, htg]
  · intro h
    simp [Tags.Update, h]
  · intro h
    have hmem : ∀ tag ∈ t.tags, (tag.name == y) = false := by
      intro tg htg
      have hh := List.find?_eq_none.mp h tg htg
      simpa using hh
    have hadd : (t.Add y).1 = ⟨t.tags ++ [⟨y, []⟩]⟩ := by simp [Tags.Add, h]
    have hget1 : Tags.Get ⟨t.tags ++ [⟨y, []⟩]⟩ y = some ⟨y, []⟩ := by
      show (t.tags ++ [(⟨y, []⟩ : Tag)]).find? (fun tag : Tag => tag.name == y) = some (⟨y, []⟩ : Tag)
      rw [find_tag_append t.tags [⟨y, []⟩] y hmem]
      simp [List.find?]
    have hupd1 : (Tags.Update ⟨t.tags ++ [⟨y, []⟩]⟩ y p1).1 = ⟨t.tags ++ [⟨y, [p1]⟩]⟩ := by
      simp only [Tags.Update, hget1]
      rw [updateFirst_append t.tags [⟨y, []⟩] y p1 hmem]
      simp [updateFirst]
    have hget2 : Tags.Get ⟨t.tags ++ [⟨y, [p1]⟩]⟩ y = some ⟨y, [p1]⟩ := by
      show (t.tags ++ [(⟨y, [p1]⟩ : Tag)]).find? (fun tag : Tag => tag.name == y) = some (⟨y, [p1]⟩ : Tag)
      rw [find_tag_append t.tags [⟨y, [p1]⟩] y hmem]
      simp [List.find?]
    have hupd2 : (Tags.Update ⟨t.tags ++ [⟨y, [p1]⟩]⟩ y p2).1 = ⟨t.tags ++ [⟨y, [p1, p2]⟩]⟩ := by
      simp only [Tags.Update, hget2]
      rw [updateFirst_append t.tags [⟨y, [p1]⟩] y p2 hmem]
      simp [updateFirst]
    have hget3 : Tags.Get ⟨t.tags ++ [⟨y, [p1, p2]⟩]⟩ y = some ⟨y, [p1, p2]⟩ := by
      show (t.tags ++ [(⟨y, [p1, p2]⟩ : Tag)]).find? (fun tag : Tag => tag.name == y) = some (⟨y, [p1, p2]⟩ : Tag)
      rw [find_tag_append t.tags [⟨y, [p1, p2]⟩] y hmem]
      simp [List.find?]
    rw [hadd, hupd1, hupd2]
    exact hget3

/-- C1 witness: concrete runs of the three scenarios. -/
theorem tags_api_semantics_witness :
    Tags.Add tagsX "x" = (tagsX, some "tag already exists") ∧
    Tags.Update tagsX "y" pgA = (tagsX, some ("tag " ++ "y" ++ " not found")) ∧
    (((Tags.Add tagsX "y").1.Update "y" pgA).1.Update "y" pgB).1.Get "y"
      = some ⟨"y", [pgA, pgB]⟩ :=
  ⟨(tags_api_semantics tagsX "x" "y" pgA pgA pgB).1 (by decide),
   (tags_api_semantics tagsX "x" "y" pgA pgA pgB).2.1 (by decide),
   (tags_api_semantics tagsX "x" "y" pgA pgA pgB).2.2 (by decide)⟩

/-- C3: when the first non blank line of a file is not exactly the
delimiter, readMeta fails with the dedicated not found signal, the scan
still produces the page, and that page carries empty metadata. -/
theorem meta_missing_continues (d nm : String) (ls : List String) (rest : List FSEntry)
    (l : String) (h1 : firstNonBlank ls = some l) (h2 : l ≠ "---")
    (hext : fileExt nm = ".md") :
    readMeta ls = .error .notFound ∧
    readDir d (.file nm ls :: rest) = (readDir d rest).map (fun ps => mkPage d nm ls :: ps) ∧
    (mkPage d nm ls).meta = ⟨[], false⟩ := by
  have hrm : readMeta ls = .error .notFound := readMetaLoop_notFound [] ls l h1 h2
  refine ⟨hrm, ?_, ?_⟩
  · rw [readDir_ok, readDir_ok]
    simp [listPages, hext, Except.map]
  · show mkMeta ls = ⟨[], false⟩
    simp only [mkMeta, hrm]
    rfl

/-- C3 witness at a concrete file without front matter. -/
theorem meta_missing_continues_witness :
    readMeta ["# Title", "body"] = .error .notFound ∧
    readDir "/w" [.file "Doc.md" ["# Title", "body"]]
      = (readDir "/w" []).map (fun ps => mkPage "/w" "Doc.md" ["# Title", "body"] :: ps) ∧
    (mkPage "/w" "Doc.md" ["# Title", "body"]).meta = ⟨[], false⟩ :=
  meta_missing_continues "/w" "Doc.md" ["# Title", "body"] [] "# Title" rfl (by decide) rfl

/-- C4 (amended): for an input whose first non blank line is the delimiter
and which contains a later delimiter line, readMeta returns exactly the
non blank lines strictly between the opening delimiter and the next
delimiter line (blank lines inside the block are dropped, delimiters are
excluded); in particular the file ---, tags: [a, b], --- yields the single
inner line, which parses to the tags a and b. -/
theorem meta_between_nonblank (bs mid rest : List String)
    (hb : ∀ b ∈ bs, b = "") (hm : "---" ∉ mid) :
    readMeta (bs ++ ["---"] ++ mid ++ ["---"] ++ rest)
        = .ok (mid.filter (fun l => l != "")) ∧
    readMeta ["---", "tags: [a, b]", "---"] = .ok ["tags: [a, b]"] ∧
    (yamlUnmarshalMeta ["tags: [a, b]"]).1 = ⟨["a", "b"], false⟩ := by
  refine ⟨?_, rfl, rfl⟩
  calc readMeta (bs ++ ["---"] ++ mid ++ ["---"] ++ rest)
      = readMetaLoop false [] (bs ++ ("---" :: (mid ++ "---" :: rest))) :=
        congrArg (readMetaLoop false []) (by simp)
    _ = readMetaLoop false [] ("---" :: (mid ++ "---" :: rest)) :=
        readMetaLoop_blank_skip false [] ("---" :: (mid ++ "---" :: rest)) bs hb
    _ = readMetaLoop true [] (mid ++ "---" :: rest) := by simp [readMetaLoop]
    _ = .ok (mid.filter (fun l => l != "")) := by
        simpa using readMetaLoop_collect mid hm [] rest

/-- C4 witness: blanks before the block are skipped and the inner non
blank lines come back. -/
theorem meta_between_nonblank_witness :
    readMeta ([""] ++ ["---"] ++ ["title: x", "draft: true"] ++ ["---"] ++ ["body"])
        = .ok (["title: x", "draft: true"].filter (fun l => l != "")) ∧
    readMeta ["---", "tags: [a, b]", "---"] = .ok ["tags: [a, b]"] ∧
    (yamlUnmarshalMeta ["tags: [a, b]"]).1 = ⟨["a", "b"], false⟩ :=
  meta_between_nonblank [""] ["title: x", "draft: true"] ["body"] (by decide) (by decide)

/-- C4 counterexample: with a blank line inside the block, the lines
strictly between the two delimiters are not returned exactly: the blank
line is dropped. -/
theorem meta_between_lines_cex :
    readMeta ["---", "k: v", "", "w: z", "---"] = .ok ["k: v", "w: z"] ∧
    (["k: v", "w: z"] : List String) ≠ ["k: v", "", "w: z"] := ⟨rfl, by decide⟩

/-- C5 (amended): blank lines are skipped everywhere, not only before the
opening delimiter: prepending blank lines never changes the result, and no
line of a successful result is blank. -/
theorem meta_blank_skipped (bs ls ms : List String)
    (hb : ∀ b ∈ bs, b = "") (hm : readMeta ls = .ok ms) :
    readMeta (bs ++ ls) = readMeta ls ∧ "" ∉ ms := by
  refine ⟨readMetaLoop_blank_skip false [] ls bs hb, ?_⟩
  exact readMetaLoop_no_blank ls false [] ms (List.not_mem_nil "") hm

/-- C5 witness at a concrete file. -/
theorem meta_blank_skipped_witness :
    readMeta ([""] ++ ["---", "x: 1", "---"]) = readMeta ["---", "x: 1", "---"] ∧
    "" ∉ (["x: 1"] : List String) :=
  meta_blank_skipped [""] ["---", "x: 1", "---"] ["x: 1"] (by decide) rfl

/-- C5 counterexample: a blank line inside the front matter block is not
collected verbatim; it is skipped. -/
theorem meta_blank_inside_cex :
    readMeta ["---", "a: 1", "", "b: 2", "---"] = .ok ["a: 1", "b: 2"] ∧
    (["a: 1", "b: 2"] : List String) ≠ ["a: 1", "", "b: 2"] := ⟨rfl, by decide⟩

/-- C10: an opening delimiter with no later closing delimiter line yields
success with an empty line list: no not found signal, no hard error, the
lines of the unterminated block are discarded, and the page metadata is
the zero value. -/
theorem meta_unterminated_ok (bs rest : List String)
    (hb : ∀ b ∈ bs, b = "") (hr : "---" ∉ rest) :
    readMeta (bs ++ ["---"] ++ rest) = .ok [] ∧
    mkMeta (bs ++ ["---"] ++ rest) = ⟨[], false⟩ := by
  have h1 : readMeta (bs ++ ["---"] ++ rest) = .ok [] := by
    calc readMeta (bs ++ ["---"] ++ rest)
        = readMetaLoop false [] (bs ++ ("---" :: rest)) :=
          congrArg (readMetaLoop false []) (by simp)
      _ = readMetaLoop false [] ("---" :: rest) :=
          readMetaLoop_blank_skip false [] ("---" :: rest) bs hb
      _ = readMetaLoop true [] rest := by simp [readMetaLoop]
      _ = .ok [] := readMetaLoop_discard rest hr []
  refine ⟨h1, ?_⟩
  simp only [mkMeta, h1]
  rfl

/-- C10 witness: an unterminated block whose lines are discarded. -/
theorem meta_unterminated_ok_witness :
    readMeta ([] ++ ["---"] ++ ["tags: [x]", "body"]) = .ok [] ∧
    mkMeta ([] ++ ["---"] ++ ["tags: [x]", "body"]) = ⟨[], false⟩ :=
  meta_unterminated_ok [] ["tags: [x]", "body"] (by decide) (by decide)

/-- C9 (amended): the dedicated not found signal lets the scan proceed,
and the only readMeta errors that abort the scan are I/O failures, outside
this model; malformed structured YAML in the collected front matter lines
does not abort the scan: the yaml error is discarded, the page is still
produced, and its metadata is whatever the unmarshal decoded (the zero
value on a syntax error). -/
theorem scan_yaml_error_ignored (d nm : String) (ls ms : List String)
    (rest : List FSEntry) (e : String)
    (hext : fileExt nm = ".md") (hmeta : readMeta ls = .ok ms)
    (herr : (yamlUnmarshalMeta ms).2 = some e) :
    readDir d (.file nm ls :: rest) = (readDir d rest).map (fun ps => mkPage d nm ls :: ps) ∧
    (mkPage d nm ls).meta = (yamlUnmarshalMeta ms).1 := by
  refine ⟨?_, ?_⟩
  · rw [readDir_ok, readDir_ok]
    simp [listPages, hext, Except.map]
  · show mkMeta ls = (yamlUnmarshalMeta ms).1
    simp only [mkMeta, hmeta]

/-- C9 witness: a page with an unclosed flow sequence in its front matter
is scanned without aborting. -/
theorem scan_yaml_error_ignored_witness :
    readDir "/w" [.file "P.md" ["---", "tags: [a", "---"], .file "x.txt" []]
      = (readDir "/w" [.file "x.txt" []]).map
          (fun ps => mkPage "/w" "P.md" ["---", "tags: [a", "---"] :: ps) ∧
    (mkPage "/w" "P.md" ["---", "tags: [a", "---"]).meta
      = (yamlUnmarshalMeta ["tags: [a"]).1 :=
  scan_yaml_error_ignored "/w" "P.md" ["---", "tags: [a", "---"] ["tags: [a"]
    [.file "x.txt" []] "yaml: syntax error" rfl rfl rfl

/-- C9 counterexample: a file whose front matter YAML is malformed (an
unclosed flow sequence) makes the unmarshal report an error, yet the scan
does not abort with a hard error: readDir succeeds and produces the page
with zero metadata. -/
theorem yaml_error_not_abort_cex :
    (yamlUnmarshalMeta ["tags: [a"]).2 = some "yaml: syntax error" ∧
    readDir "/w" [.file "P.md" ["---", "tags: [a", "---", "body"]]
      = .ok [⟨"P", "/w/P.md", ⟨[], false⟩, "/P"⟩] := by
  refine ⟨rfl, ?_⟩
  rw [readDir_ok]
  simp only [listPages]
  rfl

/-- C7 (amended): on a route table free of its two patterns, Register
installs the canonical route for the page handler and the lowercased alias
route for the redirect handler whenever the alias pattern differs from the
canonical one, and the redirect handler answers 301 to the canonical URI;
but when the (ASCII) page name has no uppercase letter the alias pattern
equals the canonical one and the second HandleFunc call panics, so no self
redirecting alias is registered. -/
theorem register_routes (p : Page) (base : String) (rs : List (String × RouteHandler))
    (hc : rs.any (fun r => r.1 == joinURL base p.uri) = false)
    (ha : rs.any (fun r => r.1 == joinURL base (strReplace p.uri p.name (strToLower p.name)))
        = false) :
    (joinURL base (strReplace p.uri p.name (strToLower p.name)) ≠ joinURL base p.uri →
      p.Register base rs = some (rs ++ [(joinURL base p.uri, .page p),
        (joinURL base (strReplace p.uri p.name (strToLower p.name)), .redirect p)])) ∧
    p.Redirect = ⟨301, "", p.uri⟩ ∧
    ((∀ c ∈ p.name.data, ¬ ('A' ≤ c ∧ c ≤ 'Z')) → p.Register base rs = none) := by
  refine ⟨?_, rfl, ?_⟩
  · intro hne
    have h2 : (rs ++ [(joinURL base p.uri, RouteHandler.page p)]).any
        (fun r => r.1 == joinURL base (strReplace p.uri p.name (strToLower p.name))) = false := by
      simp only [List.any_append, ha, Bool.false_or, List.any_cons, List.any_nil, Bool.or_false]
      exact beq_eq_false_iff_ne.mpr (Ne.symm hne)
    simp [Page.Register, handleFunc, hc, h2]
  · intro hlow
    have hl : strToLower p.name = p.name := strToLower_id p.name hlow
    have hrep : strReplace p.uri p.name (strToLower p.name) = p.uri := by
      rw [hl]
      exact strReplace_self p.uri p.name
    simp [Page.Register, handleFunc, hc, hrep, List.any_append]

/-- C7 witness: a page with an uppercase letter in its name gets both the
canonical route and the distinct alias redirect route. -/
theorem register_routes_witness :
    Page.Register homePage "/" []
      = some [(joinURL "/" homePage.uri, .page homePage),
          (joinURL "/" (strReplace homePage.uri homePage.name (strToLower homePage.name)),
            .redirect homePage)] ∧
    Page.Redirect homePage = ⟨301, "", homePage.uri⟩ :=
  ⟨(register_routes homePage "/" [] rfl rfl).1 (by decide),
   (register_routes homePage "/" [] rfl rfl).2.1⟩

/-- C7 counterexample: a page named home, all lowercase: the alias pattern
equals the canonical pattern and registration panics (none) instead of
installing a self redirecting alias route. -/
theorem register_lowercase_cex :
    Page.Register ⟨"home", "/w/home.md", ⟨[], false⟩, "/home"⟩ "/" [] = none := rfl

/-- C8 (amended): a failing repository open, history read or Markdown
rendering step is answered with exactly the constant generic 500, as is a
template execution failure that occurs before any output is written; the
body is the constant text, independent of the underlying error, which is
only logged.  A template parse failure, however, panics on the nil
template after buffering the generic 500 (missing return), so the
connection closes and the client receives no response; and a template
execution failure after a nonempty prefix was written delivers the
committed 200 status with that prefix plus the appended generic text.  In
every case the underlying error text never reaches the client and the
recovered panic keeps the failure confined to the request. -/
theorem handler_error_generic (p : Page) (hist : Bool) (env : HandlerEnv)
    (msg wrote : String) :
    (earlyFails hist env → Page.Handler p hist env = .sent 500 "Internal server error\n") ∧
    (earlyOk hist env → env.tplParse = some msg → Page.Handler p hist env = .closed) ∧
    (earlyOk hist env → env.tplParse = none → env.tplExec = .fail "" msg →
      Page.Handler p hist env = .sent 500 "Internal server error\n") ∧
    (earlyOk hist env → env.tplParse = none → env.tplExec = .fail wrote msg → wrote ≠ "" →
      Page.Handler p hist env = .sent 200 (wrote ++ "Internal server error\n")) := by
  obtain ⟨ro, hi, ht, tp, te⟩ := env
  cases hist <;> cases ro <;> cases hi <;> cases ht <;> cases tp <;> cases te <;>
    simp_all [earlyFails, earlyOk, exceptOk, Page.Handler, finishTemplate,
      RespWriter.write, RespWriter.httpError, RespWriter.result]

/-- C8 witness: the four outcomes at concrete environments. -/
theorem handler_error_generic_witness :
    Page.Handler pgA false envHtmlFail = .sent 500 "Internal server error\n" ∧
    Page.Handler pgA false envParseFail = .closed ∧
    Page.Handler pgA false envExecEarlyFail = .sent 500 "Internal server error\n" ∧
    Page.Handler pgA false envExecMidFail
      = .sent 200 ("<h1>Hi" ++ "Internal server error\n") :=
  ⟨(handler_error_generic pgA false envHtmlFail "m" "w").1 rfl,
   (handler_error_generic pgA false envParseFail
      "open templates/article.html: no such file" "w").2.1 rfl rfl,
   (handler_error_generic pgA false envExecEarlyFail
      "template: article: executing failed" "w").2.2.1 rfl rfl rfl,
   (handler_error_generic pgA false envExecMidFail
      "write tcp: broken pipe" "<h1>Hi").2.2.2 rfl rfl rfl (by decide)⟩

/-- C8 counterexample: template processing failures are not answered with
a generic 500.  A template parse failure falls through (missing return)
to Execute on the nil template, which panics, so the client receives no
response at all; and a template execution failure after partial output
delivers a committed 200 whose body is the partial output plus the
appended generic text. -/
theorem handler_template_fail_cex :
    Page.Handler pgA false envParseFail = .closed ∧
    ConnResult.closed ≠ .sent 500 "Internal server error\n" ∧
    Page.Handler pgA false envExecMidFail
      = .sent 200 ("<h1>Hi" ++ "Internal server error\n") ∧
    ConnResult.sent 200 ("<h1>Hi" ++ "Internal server error\n")
      ≠ .sent 500 "Internal server error\n" :=
  ⟨rfl, by decide, rfl, by decide⟩

end Sam
